import Mathlib

/-!
Verification development for the skeletal-animation engine
(`src/animation.rs`, `src/blend_tree.rs`).

The Rust `f32` values are modelled as exact rationals (`ℚ`): all the
arithmetic the claims are about (linear interpolation, index arithmetic,
matrix composition) is exact rational arithmetic in the idealised
semantics.  The `f32::sqrt` used for quaternion renormalisation is
modelled by `ratSqrt`, which is exact on perfect rational squares (the
only values at which any theorem below inspects it).

Rust panics (out-of-bounds indexing, `%` by zero, `expect`, map-index
panics) are modelled by `Option`/`Except` failure values.
-/

namespace SkeletalAnimation

/-- A 3-component `f32` vector (`vecmath::Vector3<f32>`). -/
structure Vec3 where
  x : ℚ
  y : ℚ
  z : ℚ
deriving DecidableEq, Repr, Inhabited

/-- A quaternion `(w, [x, y, z])` (`quaternion::Quaternion<f32>`). -/
structure Quat where
  w : ℚ
  x : ℚ
  y : ℚ
  z : ℚ
deriving DecidableEq, Repr, Inhabited

/-- Squared magnitude of a quaternion. -/
def normSq (q : Quat) : ℚ :=
  q.w * q.w + q.x * q.x + q.y * q.y + q.z * q.z

/-- Model of `f32::sqrt` over the exact rationals: exact on perfect
rational squares (in lowest terms, numerator and denominator are both
squares), and otherwise some rational approximation artefact.  Every
theorem below only evaluates it on perfect squares (`0` and `1`). -/
def ratSqrt (q : ℚ) : ℚ :=
  if 0 ≤ q then (Nat.sqrt q.num.toNat : ℚ) / (Nat.sqrt q.den : ℚ) else 0

/-- SQT transform: uniform scale, rotation quaternion, translation
(`animation.rs`, `struct SQT`). -/
structure SQT where
  translation : Vec3
  scale : ℚ
  rotation : Quat
deriving DecidableEq, Repr, Inhabited

/-- `interpolation::lerp` on scalars: `a + (b - a) * t`. -/
def lerp (a b t : ℚ) : ℚ := a + (b - a) * t

/-- `interpolation::lerp` on `Vector3` is component-wise. -/
def lerpV3 (a b : Vec3) (t : ℚ) : Vec3 :=
  ⟨lerp a.x b.x t, lerp a.y b.y t, lerp a.z b.z t⟩

/-- `animation.rs` `fn lerp_quaternion`: component-wise linear blend with
weights `(1 - blend_factor, blend_factor)` followed by renormalisation
(nlerp). -/
def lerp_quaternion (q1 q2 : Quat) (blend_factor : ℚ) : Quat :=
  let blend_factor_recip := 1 - blend_factor
  let w := blend_factor_recip * q1.w + blend_factor * q2.w
  let x := blend_factor_recip * q1.x + blend_factor * q2.x
  let y := blend_factor_recip * q1.y + blend_factor * q2.y
  let z := blend_factor_recip * q1.z + blend_factor * q2.z
  let len := ratSqrt (w * w + x * x + y * y + z * z)
  ⟨w / len, x / len, y / len, z / len⟩

/-- The per-joint pose blend performed by the interpolation loops in
`AnimationClip::get_interpolated_poses_at_time` (`animation.rs` lines
123-126) and in the `LerpNode` arm of `BlendTreeNode::get_output_pose`
(`blend_tree.rs` lines 122-125): lerp the scale, lerp the translation
component-wise, nlerp the rotation. -/
def blendSQT (pose_1 pose_2 : SQT) (blend_factor : ℚ) : SQT :=
  { scale := lerp pose_1.scale pose_2.scale blend_factor
    translation := lerpV3 pose_1.translation pose_2.translation blend_factor
    rotation := lerp_quaternion pose_1.rotation pose_2.rotation blend_factor }

/-- `animation.rs` `struct AnimationSample`. -/
structure AnimationSample where
  local_poses : List SQT
deriving DecidableEq, Repr, Inhabited

/-- `animation.rs` `struct AnimationClip`. -/
structure AnimationClip where
  samples : List AnimationSample
  samples_per_second : ℚ
deriving DecidableEq, Repr, Inhabited

/-- The Rust `as usize` cast of a non-negative-or-saturated `f32`:
truncation toward zero, clamped below at `0`.  For every rational `q`,
truncation-then-clamping agrees with `(Int.floor q).toNat`. -/
def floatToUsize (q : ℚ) : ℕ := (Int.floor q).toNat

/-- `AnimationClip::sample_at_time` (`animation.rs` lines 89-92).
`none` models the `% 0` panic on an empty sample list. -/
def AnimationClip.sample_at_time (clip : AnimationClip) (elapsed_time : ℚ) :
    Option AnimationSample :=
  if clip.samples.length = 0 then none
  else
    let sample_index :=
      floatToUsize (elapsed_time * clip.samples_per_second) % clip.samples.length
    clip.samples[sample_index]?

/-- `AnimationClip::set_duration` (`animation.rs` lines 98-100): the
division by `duration` is unconditional. -/
def AnimationClip.set_duration (clip : AnimationClip) (duration : ℚ) :
    AnimationClip :=
  { clip with samples_per_second := (clip.samples.length : ℚ) / duration }

/-- `AnimationClip::get_interpolated_poses_at_time` (`animation.rs` lines
102-130).  `none` models the panics: `% 0` on an empty sample list, and
out-of-bounds indexing of `blended_poses[i]` or `sample_2.local_poses[i]`
inside the loop.  The loop over `0 .. sample_1.local_poses.len()` that
assigns all three fields of `blended_poses[i]` is the `foldl` of
`List.set` below. -/
def AnimationClip.get_interpolated_poses_at_time (clip : AnimationClip)
    (elapsed_time : ℚ) (blended_poses : List SQT) : Option (List SQT) :=
  let interpolated_index := elapsed_time * clip.samples_per_second
  let index_1 := floatToUsize interpolated_index
  let index_2 := (Int.ceil interpolated_index).toNat
  let blend_factor := interpolated_index - (index_1 : ℚ)
  if clip.samples.length = 0 then none
  else
    let index_1 := index_1 % clip.samples.length
    let index_2 := index_2 % clip.samples.length
    let sample_1 := clip.samples.getD index_1 default
    let sample_2 := clip.samples.getD index_2 default
    if sample_1.local_poses.length ≤ blended_poses.length ∧
        sample_1.local_poses.length ≤ sample_2.local_poses.length then
      some ((List.range sample_1.local_poses.length).foldl
        (fun buf i => buf.set i
          (blendSQT (sample_1.local_poses.getD i default)
            (sample_2.local_poses.getD i default) blend_factor))
        blended_poses)
    else none

theorem ratSqrt_one : ratSqrt 1 = 1 := by
  simp [ratSqrt]

theorem ratSqrt_zero : ratSqrt 0 = 0 := by
  simp [ratSqrt]

theorem lerp_zero (a b : ℚ) : lerp a b 0 = a := by
  simp [lerp]

theorem lerp_one (a b : ℚ) : lerp a b 1 = b := by
  simp [lerp]

theorem lerpV3_zero (a b : Vec3) : lerpV3 a b 0 = a := by
  simp [lerpV3, lerp_zero]

theorem lerpV3_one (a b : Vec3) : lerpV3 a b 1 = b := by
  simp [lerpV3, lerp_one]

theorem lerp_quaternion_zero (q1 q2 : Quat) (h : normSq q1 = 1) :
    lerp_quaternion q1 q2 0 = q1 := by
  obtain ⟨w, x, y, z⟩ := q1
  simp only [normSq] at h
  simp only [lerp_quaternion, sub_zero, one_mul, zero_mul, add_zero]
  rw [h, ratSqrt_one]
  simp

theorem lerp_quaternion_one (q1 q2 : Quat) (h : normSq q2 = 1) :
    lerp_quaternion q1 q2 1 = q2 := by
  obtain ⟨w, x, y, z⟩ := q2
  simp only [normSq] at h
  simp only [lerp_quaternion, sub_self, one_mul, zero_mul, zero_add]
  rw [h, ratSqrt_one]
  simp

theorem blendSQT_zero (a b : SQT) (h : normSq a.rotation = 1) :
    blendSQT a b 0 = a := by
  obtain ⟨t, s, r⟩ := a
  simp [blendSQT, lerp_zero, lerpV3_zero, lerp_quaternion_zero _ _ h]

theorem blendSQT_one (a b : SQT) (h : normSq b.rotation = 1) :
    blendSQT a b 1 = b := by
  obtain ⟨t, s, r⟩ := b
  simp [blendSQT, lerp_one, lerpV3_one, lerp_quaternion_one _ _ h]

/-- Modelled from the spec: the `Skeleton`/`Joint` types come from the
external `collada` crate and `src/skeleton.rs`, which are not among the
provided sources.  Per spec section 3, a joint is
`{name, parent_index: Option<index>, other bind-pose data}` and
`is_root` holds exactly when there is no parent. -/
structure Joint where
  name : String
  parent_index : Option ℕ
deriving DecidableEq, Repr, Inhabited

/-- `Joint::is_root()`: a joint is a root iff it has no parent index. -/
def Joint.is_root (j : Joint) : Bool := j.parent_index.isNone

/-- Row-major 4×4 `f32` matrix (`vecmath::Matrix4<f32>`);
`row_mat4_mul a b` is ordinary matrix multiplication `a * b` and
`mat4_id` is `1`. -/
abbrev Mat4 := Matrix (Fin 4) (Fin 4) ℚ

/-- `vecmath::mat4_id`. -/
def mat4_id : Mat4 := 1

/-- Modelled from the spec: `math::quaternion_to_matrix` lives in
`src/math.rs`, which is not among the provided sources.  The spec says
only "rotation block from quaternion-to-matrix conversion"; we take the
standard homogeneous rotation matrix of a quaternion, with a zero
translation column and a `[0,0,0,1]` bottom row.  Note the function
receives only the rotation, so no definition of it can depend on the
pose's scale. -/
def quaternion_to_matrix (q : Quat) : Mat4 :=
  Matrix.of
    ![![1 - 2 * (q.y * q.y + q.z * q.z), 2 * (q.x * q.y - q.z * q.w),
        2 * (q.x * q.z + q.y * q.w), 0],
      ![2 * (q.x * q.y + q.z * q.w), 1 - 2 * (q.x * q.x + q.z * q.z),
        2 * (q.y * q.z - q.x * q.w), 0],
      ![2 * (q.x * q.z - q.y * q.w), 2 * (q.y * q.z + q.x * q.w),
        1 - 2 * (q.x * q.x + q.y * q.y), 0],
      ![0, 0, 0, 1]]

/-- The local 4×4 transform built inside `calculate_global_poses`
(`animation.rs` lines 216-222): start from
`quaternion_to_matrix(local_pose_sqt.rotation)` and overwrite the
entries `[0][3]`, `[1][3]`, `[2][3]` with the translation components.
The pose's `scale` field is never read. -/
def localPoseMatrix (local_pose_sqt : SQT) : Mat4 :=
  Matrix.of fun i j =>
    if i = 0 ∧ j = 3 then local_pose_sqt.translation.x
    else if i = 1 ∧ j = 3 then local_pose_sqt.translation.y
    else if i = 2 ∧ j = 3 then local_pose_sqt.translation.z
    else quaternion_to_matrix local_pose_sqt.rotation i j

/-- The loop body of `calculate_global_poses` (`animation.rs` lines
208-225), one joint at a time, carrying the joint index and the
accumulated `global_poses` vector.  `none` models the indexing panics
(`global_poses[parent]` or `local_poses[joint_index]` out of bounds). -/
def cgpAux (local_poses : List SQT) :
    List Joint → ℕ → List Mat4 → Option (List Mat4)
  | [], _, global_poses => some global_poses
  | joint :: rest, joint_index, global_poses =>
    let parent_pose? : Option Mat4 :=
      match joint.parent_index with
      | none => some mat4_id
      | some p => global_poses[p]?
    match parent_pose?, local_poses[joint_index]? with
    | some parent_pose, some local_pose_sqt =>
      cgpAux local_poses rest (joint_index + 1)
        (global_poses ++ [parent_pose * localPoseMatrix local_pose_sqt])
    | _, _ => none

/-- `calculate_global_poses` (`animation.rs` lines 201-228); the spec's
`resolve_global_poses`. -/
def calculate_global_poses (joints : List Joint) (local_poses : List SQT) :
    Option (List Mat4) :=
  cgpAux local_poses joints 0 []

/-- `blend_tree.rs` `type ClipId = String`. -/
abbrev ClipId := String

/-- `blend_tree.rs` `type ParamId = String`. -/
abbrev ParamId := String

/-- `blend_tree.rs` `enum BlendTreeNodeDef`. -/
inductive BlendTreeNodeDef where
  | LerpNode : BlendTreeNodeDef → BlendTreeNodeDef → ParamId → BlendTreeNodeDef
  | ClipNode : ClipId → BlendTreeNodeDef
deriving DecidableEq, Repr

/-- `blend_tree.rs` `enum BlendTreeNode`.  The `Rc<RefCell<...>>` clip
handle is modelled by the clip value itself: clips are only ever read
during evaluation. -/
inductive BlendTreeNode where
  | LerpNode : BlendTreeNode → BlendTreeNode → ParamId → BlendTreeNode
  | ClipNode : AnimationClip → BlendTreeNode
deriving DecidableEq, Repr

/-- `BlendTreeNode::from_def` (`blend_tree.rs` lines 82-102).  The
`HashMap<ClipId, Rc<RefCell<AnimationClip>>>` is modelled as an
association list; the `.expect("Missing animation clip: ...")` panic on
an unknown clip id is an `Except.error` carrying that message. -/
def BlendTreeNode.from_def (d : BlendTreeNodeDef)
    (animations : List (ClipId × AnimationClip)) :
    Except String BlendTreeNode :=
  match d with
  | BlendTreeNodeDef.LerpNode input_1 input_2 param_id => do
    let node_1 ← BlendTreeNode.from_def input_1 animations
    let node_2 ← BlendTreeNode.from_def input_2 animations
    pure (BlendTreeNode.LerpNode node_1 node_2 param_id)
  | BlendTreeNodeDef.ClipNode clip_id =>
    match animations.lookup clip_id with
    | some clip => pure (BlendTreeNode.ClipNode clip)
    | none => Except.error ("Missing animation clip: " ++ clip_id)

/-- The zero-filled scratch pose used to initialise `input_poses`
(`blend_tree.rs` line 111). -/
def zeroSQT : SQT :=
  { translation := ⟨0, 0, 0⟩, scale := 0, rotation := ⟨0, 0, 0, 0⟩ }

/-- Modelled from the spec: `AnimationClip::get_pose_at_time`, called by
the `ClipNode` arm of `get_output_pose` (`blend_tree.rs` line 130), is
not among the provided sources; spec section 4.2 says the clip variant
"delegates directly to `c.interpolated_pose_at_time(elapsed_time, out)`". -/
def AnimationClip.get_pose_at_time (clip : AnimationClip)
    (elapsed_time : ℚ) (output_poses : List SQT) : Option (List SQT) :=
  clip.get_interpolated_poses_at_time elapsed_time output_poses

/-- `BlendTreeNode::get_output_pose` (`blend_tree.rs` lines 107-133).
`Except.error` models the panics: slicing the 64-element scratch array
by a larger `sample_count`, the `params[param_name]` map-index panic on
a missing parameter (after both children have been evaluated, as in the
source), and any panic propagated out of clip sampling. -/
def BlendTreeNode.get_output_pose :
    BlendTreeNode → ℚ → List (ParamId × ℚ) → List SQT →
      Except String (List SQT)
  | BlendTreeNode.LerpNode input_1 input_2 param_name, elapsed_time,
      params, output_poses =>
    let sample_count := output_poses.length
    if sample_count ≤ 64 then
      match BlendTreeNode.get_output_pose input_1 elapsed_time params
          (List.replicate sample_count zeroSQT) with
      | Except.error e => Except.error e
      | Except.ok input_poses =>
        match BlendTreeNode.get_output_pose input_2 elapsed_time params
            output_poses with
        | Except.error e => Except.error e
        | Except.ok out =>
          match params.lookup param_name with
          | none => Except.error ("Missing parameter: " ++ param_name)
          | some blend_parameter =>
            Except.ok (out.mapIdx fun i pose_2 =>
              blendSQT (input_poses.getD i zeroSQT) pose_2 blend_parameter)
    else Except.error "scratch buffer capacity exceeded"
  | BlendTreeNode.ClipNode clip, elapsed_time, _params, output_poses =>
    match clip.get_pose_at_time elapsed_time output_poses with
    | some out => Except.ok out
    | none => Except.error "panic while sampling animation clip"

theorem range_foldl_set_length {α : Type} (f : ℕ → α) (n : ℕ) (buf : List α) :
    ((List.range n).foldl (fun b j => b.set j (f j)) buf).length = buf.length := by
  induction n with
  | zero => simp
  | succ n ih =>
    rw [List.range_succ, List.foldl_append]
    simpa using ih

theorem range_foldl_set_getElem? {α : Type} (f : ℕ → α) (n : ℕ) (buf : List α)
    (i : ℕ) :
    ((List.range n).foldl (fun b j => b.set j (f j)) buf)[i]? =
      if i < n ∧ i < buf.length then some (f i) else buf[i]? := by
  induction n with
  | zero => simp
  | succ n ih =>
    rw [List.range_succ, List.foldl_append]
    simp only [List.foldl_cons, List.foldl_nil]
    rw [List.getElem?_set]
    by_cases hni : n = i
    · subst hni
      rw [if_pos rfl, range_foldl_set_length]
      by_cases hlen : n < buf.length
      · simp [hlen]
      · rw [if_neg hlen, if_neg (by omega), List.getElem?_eq_none (by omega)]
    · rw [if_neg hni, ih]
      by_cases hin : i < n ∧ i < buf.length
      · rw [if_pos hin, if_pos (And.intro (by omega) hin.2)]
      · rw [if_neg hin, if_neg fun h => hin (And.intro (by omega) h.2)]

theorem gipat_spec (clip : AnimationClip) (t : ℚ) (buf : List SQT)
    (s1 s2 : AnimationSample) (bf : ℚ)
    (hs1 : s1 = clip.samples.getD
      (floatToUsize (t * clip.samples_per_second) % clip.samples.length) default)
    (hs2 : s2 = clip.samples.getD
      ((Int.ceil (t * clip.samples_per_second)).toNat % clip.samples.length) default)
    (hbf : bf = t * clip.samples_per_second -
      (floatToUsize (t * clip.samples_per_second) : ℚ))
    (hne : clip.samples ≠ [])
    (hb : s1.local_poses.length ≤ buf.length)
    (hlen2 : s1.local_poses.length ≤ s2.local_poses.length) :
    ∃ out, clip.get_interpolated_poses_at_time t buf = some out ∧
      out.length = buf.length ∧
      (∀ i, i < s1.local_poses.length →
        out[i]? = some (blendSQT (s1.local_poses.getD i default)
          (s2.local_poses.getD i default) bf)) ∧
      (∀ i, s1.local_poses.length ≤ i → out[i]? = buf[i]?) := by
  have hm : ¬ clip.samples.length = 0 := by
    simpa [List.length_eq_zero] using hne
  subst hs1
  subst hs2
  subst hbf
  have heq : clip.get_interpolated_poses_at_time t buf =
      some ((List.range (clip.samples.getD
          (floatToUsize (t * clip.samples_per_second) % clip.samples.length)
          default).local_poses.length).foldl
        (fun b i => b.set i
          (blendSQT ((clip.samples.getD
              (floatToUsize (t * clip.samples_per_second) % clip.samples.length)
              default).local_poses.getD i default)
            ((clip.samples.getD
              ((Int.ceil (t * clip.samples_per_second)).toNat % clip.samples.length)
              default).local_poses.getD i default)
            (t * clip.samples_per_second -
              (floatToUsize (t * clip.samples_per_second) : ℚ))))
        buf) := by
    simp only [AnimationClip.get_interpolated_poses_at_time]
    rw [if_neg hm, if_pos (And.intro hb hlen2)]
  refine ⟨_, heq, ?_, ?_, ?_⟩
  · exact range_foldl_set_length _ _ _
  · intro i hi
    rw [range_foldl_set_getElem?, if_pos (And.intro hi (lt_of_lt_of_le hi hb))]
  · intro i hi
    rw [range_foldl_set_getElem?, if_neg (by omega)]

/-- The parent transform `calculate_global_poses` multiplies on the
left: the already-computed global pose of the parent joint, or the
identity matrix for a root joint. -/
def parentPoseOf (global_poses : List Mat4) (joint : Joint) : Mat4 :=
  match joint.parent_index with
  | none => mat4_id
  | some p => global_poses.getD p 1

theorem cgpAux_spec (poses : List SQT) (joints : List Joint) :
    ∀ (idx : ℕ) (acc : List Mat4),
      acc.length = idx →
      (∀ k, k < joints.length → ∀ p,
        (joints.getD k default).parent_index = some p → p < idx + k) →
      idx + joints.length ≤ poses.length →
      ∃ out, cgpAux poses joints idx acc = some out ∧
        out.length = idx + joints.length ∧
        (∀ j, j < idx → out[j]? = acc[j]?) ∧
        (∀ k, k < joints.length →
          out[idx + k]? = some (parentPoseOf out ((joints.getD k default)) *
            localPoseMatrix (poses.getD (idx + k) default))) := by
  induction joints with
  | nil =>
    intro idx acc hacc _ _
    exact ⟨acc, rfl, by simpa using hacc, fun j _ => rfl, by simp⟩
  | cons joint rest ih =>
    intro idx acc hacc htopo hlen
    have hidx : idx < poses.length := by
      have := hlen
      simp only [List.length_cons] at this
      omega
    obtain ⟨lp, hlp⟩ : ∃ lp, poses[idx]? = some lp :=
      ⟨poses[idx], List.getElem?_eq_getElem hidx⟩
    -- resolve the parent pose for the head joint
    obtain ⟨pp, hpp, hppval⟩ :
        ∃ pp, (match joint.parent_index with
          | none => some mat4_id
          | some p => acc[p]? : Option Mat4) = some pp ∧
          parentPoseOf acc joint = pp := by
      cases hpi : joint.parent_index with
      | none => exact ⟨mat4_id, rfl, by simp [parentPoseOf, hpi]⟩
      | some p =>
        have hp : p < idx := by
          have := htopo 0 (by simp) p (by simpa using hpi)
          simpa using this
        have hpacc : p < acc.length := by omega
        refine ⟨acc[p], List.getElem?_eq_getElem hpacc, ?_⟩
        simp [parentPoseOf, hpi, List.getD_eq_getElem?_getD,
          List.getElem?_eq_getElem hpacc]
    have hstep : cgpAux poses (joint :: rest) idx acc =
        cgpAux poses rest (idx + 1)
          (acc ++ [pp * localPoseMatrix lp]) := by
      simp only [cgpAux]
      rw [hpp, hlp]
    have htopo' : ∀ k, k < rest.length → ∀ p,
        (rest.getD k default).parent_index = some p → p < (idx + 1) + k := by
      intro k hk p hpk
      have := htopo (k + 1) (by simpa using Nat.succ_lt_succ hk) p
        (by simpa using hpk)
      omega
    have hlen' : (idx + 1) + rest.length ≤ poses.length := by
      simp only [List.length_cons] at hlen
      omega
    have hacc' : (acc ++ [pp * localPoseMatrix lp]).length = idx + 1 := by
      simp [hacc]
    obtain ⟨out, hout, houtlen, hpre, hmain⟩ :=
      ih (idx + 1) (acc ++ [pp * localPoseMatrix lp]) hacc' htopo' hlen'
    have hpre' : ∀ j, j < idx → out[j]? = acc[j]? := by
      intro j hj
      rw [hpre j (by omega), List.getElem?_append_left (by omega)]
    have hat : out[idx]? = some (pp * localPoseMatrix lp) := by
      rw [hpre idx (by omega)]
      have h0 : (acc ++ [pp * localPoseMatrix lp])[acc.length]? =
          some (pp * localPoseMatrix lp) := List.getElem?_concat_length _ _
      rw [hacc] at h0
      exact h0
    have hppout : parentPoseOf out joint = pp := by
      rw [← hppval]
      cases hpi : joint.parent_index with
      | none => simp [parentPoseOf, hpi]
      | some p =>
        have hp : p < idx := by
          have := htopo 0 (by simp) p (by simpa using hpi)
          simpa using this
        simp only [parentPoseOf, hpi]
        rw [List.getD_eq_getElem?_getD, List.getD_eq_getElem?_getD, hpre' p hp]
    refine ⟨out, by rw [hstep]; exact hout, by simp only [List.length_cons]; omega,
      hpre', ?_⟩
    intro k hk
    cases k with
    | zero =>
      simp only [Nat.add_zero, List.getD_cons_zero]
      rw [hat, hppout]
      congr 2
      rw [List.getD_eq_getElem?_getD, hlp]
      rfl
    | succ k' =>
      have hk' : k' < rest.length := by simpa using hk
      have := hmain k' hk'
      have harith : idx + (k' + 1) = (idx + 1) + k' := by omega
      rw [harith, List.getD_cons_succ]
      exact this

/-- A concrete unit-rotation pose used by the witnesses. -/
def poseW : SQT := { translation := ⟨0, 0, 0⟩, scale := 1, rotation := ⟨1, 0, 0, 0⟩ }

/-- A second concrete unit-rotation pose used by the witnesses. -/
def poseW2 : SQT := { translation := ⟨1, 2, 3⟩, scale := 5, rotation := ⟨0, 1, 0, 0⟩ }

/-- A concrete one-sample, one-joint clip used by the witnesses. -/
def clipW : AnimationClip :=
  { samples := [{ local_poses := [poseW] }], samples_per_second := 1 }

/-- C5: for every `AnimationClip` with `N ≥ 1` samples at rate `r`,
`sample_at_time (N / r)` returns the same sample as `sample_at_time 0`:
the index `(N / r) * r = N` truncates to `N`, and `N % N = 0` wraps
exactly to the first sample. -/
theorem c5_loop_wraparound (clip : AnimationClip)
    (hne : clip.samples ≠ []) (hr : clip.samples_per_second ≠ 0) :
    clip.sample_at_time ((clip.samples.length : ℚ) / clip.samples_per_second) =
      clip.sample_at_time 0 := by
  have hm : ¬ clip.samples.length = 0 := by
    simpa [List.length_eq_zero] using hne
  simp only [AnimationClip.sample_at_time, if_neg hm]
  have h1 : (clip.samples.length : ℚ) / clip.samples_per_second *
      clip.samples_per_second = (clip.samples.length : ℚ) :=
    div_mul_cancel₀ _ hr
  rw [h1, zero_mul]
  simp [floatToUsize, Int.floor_natCast, Nat.mod_self]

/-- Witness for C5 at a concrete one-sample clip of rate 1. -/
theorem c5_loop_wraparound_witness :
    clipW.sample_at_time ((clipW.samples.length : ℚ) / clipW.samples_per_second) =
      clipW.sample_at_time 0 :=
  c5_loop_wraparound clipW (by simp [clipW]) (by norm_num [clipW])

/-- C7: the per-joint pose blend of Lerp-node evaluation returns the
first pose exactly at blend factor `0` and the second pose exactly at
blend factor `1`, in all three components, whenever the rotations are
unit quaternions. -/
theorem c7_identity_blend (poseA poseB : SQT)
    (ha : normSq poseA.rotation = 1) (hb : normSq poseB.rotation = 1) :
    blendSQT poseA poseB 0 = poseA ∧ blendSQT poseA poseB 1 = poseB :=
  ⟨blendSQT_zero poseA poseB ha, blendSQT_one poseA poseB hb⟩

/-- Witness for C7 at two concrete unit-rotation poses. -/
theorem c7_identity_blend_witness :
    blendSQT poseW poseW2 0 = poseW ∧ blendSQT poseW poseW2 1 = poseW2 :=
  c7_identity_blend poseW poseW2 (by norm_num [poseW, normSq])
    (by norm_num [poseW2, normSq])

/-- C9: blend-tree evaluation is deterministic: `get_output_pose` is a
pure function of the tree, the elapsed time, the parameter map and the
output buffer, so two calls on identical inputs return identical
results. -/
theorem c9_determinism (node : BlendTreeNode) (elapsed_time : ℚ)
    (params : List (ParamId × ℚ)) (buf_1 buf_2 : List SQT)
    (h : buf_1 = buf_2) :
    node.get_output_pose elapsed_time params buf_1 =
      node.get_output_pose elapsed_time params buf_2 := by
  rw [h]

/-- Witness for C9 at a concrete clip node. -/
theorem c9_determinism_witness :
    (BlendTreeNode.ClipNode clipW).get_output_pose 0 [] [zeroSQT] =
      (BlendTreeNode.ClipNode clipW).get_output_pose 0 [] [zeroSQT] :=
  c9_determinism (BlendTreeNode.ClipNode clipW) 0 [] [zeroSQT] [zeroSQT] rfl

/-- C1: `get_interpolated_poses_at_time` computes
`interpolated_index = t * samples_per_second`,
`index_1 = floor(interpolated_index)` (cast to `usize`),
`index_2 = ceil(interpolated_index)` (cast to `usize`),
`blend_factor = interpolated_index - index_1`, reduces both indices
modulo the sample count (every clip loops), and writes into `out[i]` the
pose whose scale and translation are the component-wise linear
interpolations of the two samples' poses and whose rotation is their
nlerp, all with weight `blend_factor`.  Stated for non-negative time and
rate, where the float-to-`usize` casts agree with `floor`/`ceil`. -/
theorem c1_interpolated_poses (clip : AnimationClip) (t : ℚ)
    (buf : List SQT) (n : ℕ) (sample_1 sample_2 : AnimationSample)
    (blend_factor : ℚ)
    (hs1 : sample_1 = clip.samples.getD
      ((Int.floor (t * clip.samples_per_second)).toNat % clip.samples.length)
      default)
    (hs2 : sample_2 = clip.samples.getD
      ((Int.ceil (t * clip.samples_per_second)).toNat % clip.samples.length)
      default)
    (hbf : blend_factor = t * clip.samples_per_second -
      (Int.floor (t * clip.samples_per_second) : ℚ))
    (hne : clip.samples ≠ []) (ht : 0 ≤ t) (hr : 0 ≤ clip.samples_per_second)
    (huni : ∀ s ∈ clip.samples, s.local_poses.length = n)
    (hb : n ≤ buf.length) :
    ∃ out, clip.get_interpolated_poses_at_time t buf = some out ∧
      ∀ i, i < n →
        out[i]? = some
          { scale := lerp (sample_1.local_poses.getD i default).scale
              (sample_2.local_poses.getD i default).scale blend_factor
            translation :=
              lerpV3 (sample_1.local_poses.getD i default).translation
                (sample_2.local_poses.getD i default).translation blend_factor
            rotation :=
              lerp_quaternion (sample_1.local_poses.getD i default).rotation
                (sample_2.local_poses.getD i default).rotation blend_factor } := by
  have hmpos : 0 < clip.samples.length := List.length_pos.mpr hne
  have hii : (0:ℚ) ≤ t * clip.samples_per_second := mul_nonneg ht hr
  have hcast : ((floatToUsize (t * clip.samples_per_second)) : ℚ) =
      ((Int.floor (t * clip.samples_per_second)) : ℚ) := by
    unfold floatToUsize
    exact_mod_cast Int.toNat_of_nonneg (Int.floor_nonneg.2 hii)
  have hbf' : blend_factor = t * clip.samples_per_second -
      (floatToUsize (t * clip.samples_per_second) : ℚ) := by
    rw [hbf, hcast]
  have hn1 : sample_1.local_poses.length = n := by
    have hk : (Int.floor (t * clip.samples_per_second)).toNat %
        clip.samples.length < clip.samples.length := Nat.mod_lt _ hmpos
    rw [hs1, List.getD_eq_getElem?_getD, List.getElem?_eq_getElem hk]
    exact huni _ (List.getElem_mem hk)
  have hn2 : sample_2.local_poses.length = n := by
    have hk : (Int.ceil (t * clip.samples_per_second)).toNat %
        clip.samples.length < clip.samples.length := Nat.mod_lt _ hmpos
    rw [hs2, List.getD_eq_getElem?_getD, List.getElem?_eq_getElem hk]
    exact huni _ (List.getElem_mem hk)
  obtain ⟨out, hout, _, hmain, _⟩ :=
    gipat_spec clip t buf sample_1 sample_2 blend_factor hs1 hs2 hbf' hne
      (by omega) (by omega)
  refine ⟨out, hout, ?_⟩
  intro i hi
  exact hmain i (by omega)

/-- Witness for C1 at a concrete one-sample clip, `t = 0`. -/
theorem c1_interpolated_poses_witness :
    ∃ out, clipW.get_interpolated_poses_at_time 0 [zeroSQT] = some out ∧
      ∀ i, i < 1 →
        out[i]? = some
          { scale := lerp ((clipW.samples.getD
              ((Int.floor ((0:ℚ) * clipW.samples_per_second)).toNat %
                clipW.samples.length) default).local_poses.getD i default).scale
              ((clipW.samples.getD
              ((Int.ceil ((0:ℚ) * clipW.samples_per_second)).toNat %
                clipW.samples.length) default).local_poses.getD i default).scale 0
            translation := lerpV3 ((clipW.samples.getD
              ((Int.floor ((0:ℚ) * clipW.samples_per_second)).toNat %
                clipW.samples.length) default).local_poses.getD i default).translation
              ((clipW.samples.getD
              ((Int.ceil ((0:ℚ) * clipW.samples_per_second)).toNat %
                clipW.samples.length) default).local_poses.getD i default).translation 0
            rotation := lerp_quaternion ((clipW.samples.getD
              ((Int.floor ((0:ℚ) * clipW.samples_per_second)).toNat %
                clipW.samples.length) default).local_poses.getD i default).rotation
              ((clipW.samples.getD
              ((Int.ceil ((0:ℚ) * clipW.samples_per_second)).toNat %
                clipW.samples.length) default).local_poses.getD i default).rotation 0 } :=
  c1_interpolated_poses clipW 0 [zeroSQT] 1 _ _ 0 rfl rfl (by norm_num)
    (by simp [clipW]) le_rfl (by norm_num [clipW]) (by simp [clipW])
    (by norm_num)

/-- C6: when the interpolated index hits a sample exactly
(`index_1 = index_2`, i.e. `ceil = floor`, so `blend_factor = 0`),
interpolation degenerates to an exact copy of `sample_1`'s per-joint
poses, given the data-model invariant that stored rotations are
unit quaternions (renormalisation then divides by exactly 1). -/
theorem c6_exact_sample_hit (clip : AnimationClip) (t : ℚ)
    (buf : List SQT) (n : ℕ)
    (hne : clip.samples ≠ []) (ht : 0 ≤ t) (hr : 0 ≤ clip.samples_per_second)
    (hhit : Int.ceil (t * clip.samples_per_second) =
      Int.floor (t * clip.samples_per_second))
    (huni : ∀ s ∈ clip.samples, s.local_poses.length = n)
    (hb : n ≤ buf.length)
    (hunit : ∀ pose ∈ (clip.samples.getD
      ((Int.floor (t * clip.samples_per_second)).toNat % clip.samples.length)
      default).local_poses, normSq pose.rotation = 1) :
    ∃ out, clip.get_interpolated_poses_at_time t buf = some out ∧
      ∀ i, i < n →
        out[i]? = (clip.samples.getD
          ((Int.floor (t * clip.samples_per_second)).toNat % clip.samples.length)
          default).local_poses[i]? := by
  have hmpos : 0 < clip.samples.length := List.length_pos.mpr hne
  have hii : (0:ℚ) ≤ t * clip.samples_per_second := mul_nonneg ht hr
  have hcast : ((floatToUsize (t * clip.samples_per_second)) : ℚ) =
      ((Int.floor (t * clip.samples_per_second)) : ℚ) := by
    unfold floatToUsize
    exact_mod_cast Int.toNat_of_nonneg (Int.floor_nonneg.2 hii)
  have hint : ((Int.floor (t * clip.samples_per_second) : ℤ) : ℚ) =
      t * clip.samples_per_second := by
    refine le_antisymm (Int.floor_le _) ?_
    have h := Int.le_ceil (t * clip.samples_per_second)
    rwa [hhit] at h
  have hbf0 : (0:ℚ) = t * clip.samples_per_second -
      (floatToUsize (t * clip.samples_per_second) : ℚ) := by
    rw [hcast, hint]
    ring
  have hk : (Int.floor (t * clip.samples_per_second)).toNat %
      clip.samples.length < clip.samples.length := Nat.mod_lt _ hmpos
  have hn1 : (clip.samples.getD
      ((Int.floor (t * clip.samples_per_second)).toNat % clip.samples.length)
      default).local_poses.length = n := by
    rw [List.getD_eq_getElem?_getD, List.getElem?_eq_getElem hk]
    exact huni _ (List.getElem_mem hk)
  have hs2idx : (Int.ceil (t * clip.samples_per_second)).toNat =
      (Int.floor (t * clip.samples_per_second)).toNat := by rw [hhit]
  obtain ⟨out, hout, _, hmain, _⟩ :=
    gipat_spec clip t buf
      (clip.samples.getD
        ((Int.floor (t * clip.samples_per_second)).toNat % clip.samples.length)
        default)
      (clip.samples.getD
        ((Int.ceil (t * clip.samples_per_second)).toNat % clip.samples.length)
        default)
      0 rfl rfl hbf0 hne (by omega) (by rw [hs2idx])
  refine ⟨out, hout, ?_⟩
  intro i hi
  have hi1 : i < (clip.samples.getD
      ((Int.floor (t * clip.samples_per_second)).toNat % clip.samples.length)
      default).local_poses.length := by omega
  have hmem := List.getElem_mem hi1
  have hgd : (clip.samples.getD
      ((Int.floor (t * clip.samples_per_second)).toNat % clip.samples.length)
      default).local_poses.getD i default =
      (clip.samples.getD
      ((Int.floor (t * clip.samples_per_second)).toNat % clip.samples.length)
      default).local_poses[i] := by
    rw [List.getD_eq_getElem?_getD, List.getElem?_eq_getElem hi1]
    rfl
  rw [hmain i hi1, List.getElem?_eq_getElem hi1]
  congr 1
  rw [blendSQT_zero]
  · exact hgd
  · rw [hgd]
    exact hunit _ hmem

/-- Witness for C6 at a concrete one-sample clip, `t = 0` (an exact
sample hit, since `0 * 1` is an integer). -/
theorem c6_exact_sample_hit_witness :
    ∃ out, clipW.get_interpolated_poses_at_time 0 [zeroSQT] = some out ∧
      ∀ i, i < 1 →
        out[i]? = (clipW.samples.getD
          ((Int.floor ((0:ℚ) * clipW.samples_per_second)).toNat %
            clipW.samples.length) default).local_poses[i]? :=
  c6_exact_sample_hit clipW 0 [zeroSQT] 1 (by simp [clipW]) le_rfl
    (by norm_num [clipW]) (by norm_num) (by norm_num [clipW]) (by simp [clipW])
    (by
      intro pose hpose
      norm_num [clipW, poseW] at hpose
      rw [hpose]
      norm_num [poseW, normSq])

/-- C10: for a clip with at least one sample and a buffer at least as
long as the per-sample joint count, `get_interpolated_poses_at_time`
writes exactly the first joint-count buffer elements (with the blended
poses) and leaves every element at an index ≥ the joint count
unchanged; the buffer length is preserved. -/
theorem c10_frame_effect (clip : AnimationClip) (t : ℚ)
    (buf : List SQT) (n : ℕ)
    (hne : clip.samples ≠ [])
    (huni : ∀ s ∈ clip.samples, s.local_poses.length = n)
    (hb : n ≤ buf.length) :
    ∃ out, clip.get_interpolated_poses_at_time t buf = some out ∧
      out.length = buf.length ∧
      (∀ i, i < n →
        out[i]? = some (blendSQT
          ((clip.samples.getD
            (floatToUsize (t * clip.samples_per_second) % clip.samples.length)
            default).local_poses.getD i default)
          ((clip.samples.getD
            ((Int.ceil (t * clip.samples_per_second)).toNat % clip.samples.length)
            default).local_poses.getD i default)
          (t * clip.samples_per_second -
            (floatToUsize (t * clip.samples_per_second) : ℚ)))) ∧
      (∀ i, n ≤ i → out[i]? = buf[i]?) := by
  have hmpos : 0 < clip.samples.length := List.length_pos.mpr hne
  have hk1 : floatToUsize (t * clip.samples_per_second) %
      clip.samples.length < clip.samples.length := Nat.mod_lt _ hmpos
  have hk2 : (Int.ceil (t * clip.samples_per_second)).toNat %
      clip.samples.length < clip.samples.length := Nat.mod_lt _ hmpos
  have hn1 : (clip.samples.getD
      (floatToUsize (t * clip.samples_per_second) % clip.samples.length)
      default).local_poses.length = n := by
    rw [List.getD_eq_getElem?_getD, List.getElem?_eq_getElem hk1]
    exact huni _ (List.getElem_mem hk1)
  have hn2 : (clip.samples.getD
      ((Int.ceil (t * clip.samples_per_second)).toNat % clip.samples.length)
      default).local_poses.length = n := by
    rw [List.getD_eq_getElem?_getD, List.getElem?_eq_getElem hk2]
    exact huni _ (List.getElem_mem hk2)
  obtain ⟨out, hout, houtlen, hmain, hrest⟩ :=
    gipat_spec clip t buf _ _ _ rfl rfl rfl hne (by omega) (by omega)
  refine ⟨out, hout, houtlen, ?_, ?_⟩
  · intro i hi
    exact hmain i (by omega)
  · intro i hi
    exact hrest i (by omega)

/-- Witness for C10 at a concrete one-sample clip with an oversized
two-element buffer: the second element is untouched. -/
theorem c10_frame_effect_witness :
    ∃ out, clipW.get_interpolated_poses_at_time 0 [zeroSQT, poseW2] = some out ∧
      out.length = 2 ∧
      (∀ i, i < 1 →
        out[i]? = some (blendSQT
          ((clipW.samples.getD
            (floatToUsize ((0:ℚ) * clipW.samples_per_second) %
              clipW.samples.length) default).local_poses.getD i default)
          ((clipW.samples.getD
            ((Int.ceil ((0:ℚ) * clipW.samples_per_second)).toNat %
              clipW.samples.length) default).local_poses.getD i default)
          ((0:ℚ) * clipW.samples_per_second -
            (floatToUsize ((0:ℚ) * clipW.samples_per_second) : ℚ)))) ∧
      (∀ i, 1 ≤ i → out[i]? = [zeroSQT, poseW2][i]?) :=
  c10_frame_effect clipW 0 [zeroSQT, poseW2] 1 (by simp [clipW])
    (by norm_num [clipW]) (by norm_num)

/-- A concrete one-sample clip with zero joints, used by witnesses
whose children must evaluate successfully on an empty buffer. -/
def clipW0 : AnimationClip :=
  { samples := [{ local_poses := [] }], samples_per_second := 1 }

/-- C4: building a blend tree from a `ClipNode` definition whose clip id
is absent from the name-to-clip mapping fails with the
"Missing animation clip" error, and evaluating a `LerpNode` whose
parameter name is absent from the parameter map fails with a
missing-parameter error (the map-index panic) instead of substituting a
default blend factor; in both cases the failure value is an error, never
a defaulted result. -/
theorem c4_missing_references
    (animations : List (ClipId × AnimationClip)) (clip_id : ClipId)
    (node_1 node_2 : BlendTreeNode) (param_name : ParamId)
    (elapsed_time : ℚ) (params : List (ParamId × ℚ)) (buf : List SQT)
    (poses_1 poses_2 : List SQT)
    (hclip : animations.lookup clip_id = none)
    (hparam : params.lookup param_name = none)
    (hcap : buf.length ≤ 64)
    (h1 : node_1.get_output_pose elapsed_time params
      (List.replicate buf.length zeroSQT) = Except.ok poses_1)
    (h2 : node_2.get_output_pose elapsed_time params buf = Except.ok poses_2) :
    BlendTreeNode.from_def (BlendTreeNodeDef.ClipNode clip_id) animations =
      Except.error ("Missing animation clip: " ++ clip_id) ∧
    (BlendTreeNode.LerpNode node_1 node_2 param_name).get_output_pose
        elapsed_time params buf =
      Except.error ("Missing parameter: " ++ param_name) := by
  constructor
  · simp [BlendTreeNode.from_def, hclip]
  · simp only [BlendTreeNode.get_output_pose, if_pos hcap, h1, h2, hparam]

/-- Witness for C4: an empty clip mapping, an unknown clip id, and a
lerp of two well-formed clip nodes with an empty parameter map. -/
theorem c4_missing_references_witness :
    BlendTreeNode.from_def (BlendTreeNodeDef.ClipNode "walk") [] =
      Except.error ("Missing animation clip: " ++ "walk") ∧
    (BlendTreeNode.LerpNode (BlendTreeNode.ClipNode clipW0)
        (BlendTreeNode.ClipNode clipW0) "w").get_output_pose 0 [] [zeroSQT] =
      Except.error ("Missing parameter: " ++ "w") :=
  c4_missing_references [] "walk" (BlendTreeNode.ClipNode clipW0)
    (BlendTreeNode.ClipNode clipW0) "w" 0 [] [zeroSQT] [zeroSQT] [zeroSQT]
    rfl rfl (by norm_num)
    (by
      simp [BlendTreeNode.get_output_pose, AnimationClip.get_pose_at_time,
        AnimationClip.get_interpolated_poses_at_time, clipW0, floatToUsize,
        List.replicate])
    (by
      simp [BlendTreeNode.get_output_pose, AnimationClip.get_pose_at_time,
        AnimationClip.get_interpolated_poses_at_time, clipW0, floatToUsize])

/-- C3: for a topologically sorted skeleton (each parent index precedes
its joint) and an equally long pose array, `calculate_global_poses`
succeeds, returns one matrix per joint in joint order, and satisfies
`global[k] = global[parent(k)] * local_k` for non-root joints and
`global[k] = local_k` for root joints (the parent transform is the
identity matrix). -/
theorem c3_global_pose_composition (joints : List Joint) (poses : List SQT)
    (htopo : ∀ k, k < joints.length → ∀ p,
      (joints.getD k default).parent_index = some p → p < k)
    (hlen : poses.length = joints.length) :
    ∃ out, calculate_global_poses joints poses = some out ∧
      out.length = joints.length ∧
      (∀ k, k < joints.length → ∀ p,
        (joints.getD k default).parent_index = some p →
        out[k]? = some (out.getD p 1 * localPoseMatrix (poses.getD k default))) ∧
      (∀ k, k < joints.length →
        (joints.getD k default).parent_index = none →
        out[k]? = some (localPoseMatrix (poses.getD k default))) := by
  obtain ⟨out, hout, hlen', _, hmain⟩ :=
    cgpAux_spec poses joints 0 []
      rfl
      (by intro k hk p hp; have := htopo k hk p hp; omega)
      (by omega)
  refine ⟨out, hout, by simpa using hlen', ?_, ?_⟩
  · intro k hk p hp
    have h := hmain k hk
    simp only [Nat.zero_add] at h
    rw [h]
    simp only [parentPoseOf, hp]
  · intro k hk hp
    have h := hmain k hk
    simp only [Nat.zero_add] at h
    rw [h]
    simp only [parentPoseOf, hp, mat4_id, one_mul]

/-- Witness for C3 at a concrete two-joint root → child chain. -/
theorem c3_global_pose_composition_witness :
    ∃ out, calculate_global_poses
        [{ name := "root", parent_index := none },
         { name := "child", parent_index := some 0 }] [poseW, poseW2] = some out ∧
      out.length = 2 ∧
      (∀ k, k < 2 → ∀ p,
        ([{ name := "root", parent_index := none },
          { name := "child", parent_index := some 0 }].getD k
            (default : Joint)).parent_index = some p →
        out[k]? = some (out.getD p 1 *
          localPoseMatrix ([poseW, poseW2].getD k default))) ∧
      (∀ k, k < 2 →
        ([{ name := "root", parent_index := none },
          { name := "child", parent_index := some 0 }].getD k
            (default : Joint)).parent_index = none →
        out[k]? = some (localPoseMatrix ([poseW, poseW2].getD k default))) :=
  c3_global_pose_composition _ _
    (by
      intro k hk p hp
      have hk2 : k < 2 := by simpa using hk
      interval_cases k
      · simp at hp
      · simp at hp
        omega)
    rfl

theorem cgpAux_scale_invariant (c : ℚ) (poses : List SQT)
    (joints : List Joint) :
    ∀ (idx : ℕ) (acc : List Mat4),
      cgpAux (poses.map fun p => { p with scale := c }) joints idx acc =
        cgpAux poses joints idx acc := by
  induction joints with
  | nil => intro idx acc; rfl
  | cons joint rest ih =>
    intro idx acc
    simp only [cgpAux, List.getElem?_map]
    cases hpar : (match joint.parent_index with
        | none => some mat4_id
        | some p => acc[p]? : Option Mat4) with
    | none => rfl
    | some pp =>
      cases hlp : poses[idx]? with
      | none => rfl
      | some lp =>
        simp only [Option.map_some']
        exact ih _ _

/-- C2 counterexample: for a single root joint whose local pose has
scale 2 (identity rotation, zero translation), `calculate_global_poses`
returns exactly the same output as for the same pose with scale 1, and
the resulting matrix's `[0][0]` entry is `1`, not the scale factor: the
uniform scale is never folded into the composed transform. -/
theorem c2_counterexample :
    calculate_global_poses [{ name := "root", parent_index := none }]
        [{ translation := ⟨0, 0, 0⟩, scale := 2, rotation := ⟨1, 0, 0, 0⟩ }] =
      calculate_global_poses [{ name := "root", parent_index := none }]
        [{ translation := ⟨0, 0, 0⟩, scale := 1, rotation := ⟨1, 0, 0, 0⟩ }] ∧
    calculate_global_poses [{ name := "root", parent_index := none }]
        [{ translation := ⟨0, 0, 0⟩, scale := 2, rotation := ⟨1, 0, 0, 0⟩ }] =
      some [mat4_id * localPoseMatrix
        { translation := ⟨0, 0, 0⟩, scale := 2, rotation := ⟨1, 0, 0, 0⟩ }] ∧
    (mat4_id * localPoseMatrix
        { translation := ⟨0, 0, 0⟩, scale := 2, rotation := ⟨1, 0, 0, 0⟩ }) 0 0
      = 1 := by
  refine ⟨rfl, rfl, ?_⟩
  have hid : mat4_id = (1 : Mat4) := rfl
  rw [hid, one_mul]
  simp only [localPoseMatrix, Matrix.of_apply]
  rw [if_neg (by decide), if_neg (by decide), if_neg (by decide)]
  simp only [quaternion_to_matrix, Matrix.of_apply, Matrix.cons_val_zero]
  norm_num

/-- C2 amended: `calculate_global_poses` builds each joint's local 4×4
transform with the rotation block taken from quaternion-to-matrix
conversion of `local_poses[i].rotation` and the translation column taken
from `local_poses[i].translation`, but the `scale` field is ignored
entirely — rewriting every pose's scale (to any value) leaves the
output unchanged. -/
theorem c2_local_transform_ignores_scale (s : SQT) (c : ℚ)
    (joints : List Joint) (poses : List SQT) :
    (∀ i j : Fin 4, ¬ j = 3 →
      localPoseMatrix s i j = quaternion_to_matrix s.rotation i j) ∧
    localPoseMatrix s 0 3 = s.translation.x ∧
    localPoseMatrix s 1 3 = s.translation.y ∧
    localPoseMatrix s 2 3 = s.translation.z ∧
    localPoseMatrix s 3 3 = 1 ∧
    localPoseMatrix { s with scale := c } = localPoseMatrix s ∧
    calculate_global_poses joints (poses.map fun p => { p with scale := c }) =
      calculate_global_poses joints poses := by
  refine ⟨?_, ?_, ?_, ?_, ?_, rfl, cgpAux_scale_invariant c poses joints 0 []⟩
  · intro i j hj
    simp only [localPoseMatrix, Matrix.of_apply]
    rw [if_neg fun h => hj h.2, if_neg fun h => hj h.2, if_neg fun h => hj h.2]
  · simp [localPoseMatrix]
  · simp [localPoseMatrix]
  · simp [localPoseMatrix]
  · simp only [localPoseMatrix, Matrix.of_apply]
    rw [if_neg (by decide), if_neg (by decide), if_neg (by decide)]
    simp only [quaternion_to_matrix, Matrix.of_apply]
    simp [Matrix.cons_val_three, Matrix.tail_cons, Matrix.head_cons]

/-- Witness for C2's amended theorem at a concrete pose: the
off-translation entry `(0,0)` comes from the quaternion matrix. -/
theorem c2_local_transform_ignores_scale_witness :
    localPoseMatrix poseW2 0 0 = quaternion_to_matrix poseW2.rotation 0 0 :=
  (c2_local_transform_ignores_scale poseW2 7 [] []).1 0 0 (by decide)

/-- C8 counterexample: blending the antipodal unit quaternions
`(1,0,0,0)` and `(-1,0,0,0)` at factor 1/2 makes the interpolated
magnitude zero, and `lerp_quaternion` returns the degenerate zero
quaternion (the unguarded division by the zero magnitude) instead of
detecting or reporting anything; `set_duration 0` likewise performs the
unguarded division `samples_len / 0`. -/
theorem c8_counterexample :
    lerp_quaternion ⟨1, 0, 0, 0⟩ ⟨-1, 0, 0, 0⟩ (1 / 2) = ⟨0, 0, 0, 0⟩ ∧
    normSq (⟨0, 0, 0, 0⟩ : Quat) ≠ 1 ∧
    (clipW.set_duration 0).samples_per_second = (1 : ℚ) / 0 := by
  refine ⟨?_, by norm_num [normSq], by norm_num [clipW, AnimationClip.set_duration]⟩
  simp only [lerp_quaternion]
  norm_num

/-- C8 amended: neither degeneracy is detected or reported.
`lerp_quaternion` always divides by the interpolated magnitude with no
zero check — for any antipodal pair at factor 1/2 it returns the zero
quaternion, whose squared norm is 0, violating the unit-norm invariant
silently — and `set_duration` always divides by the given duration with
no zero check. -/
theorem c8_no_degeneracy_guard (q : Quat) (clip : AnimationClip) :
    lerp_quaternion q ⟨-q.w, -q.x, -q.y, -q.z⟩ (1 / 2) = ⟨0, 0, 0, 0⟩ ∧
    normSq (lerp_quaternion q ⟨-q.w, -q.x, -q.y, -q.z⟩ (1 / 2)) = 0 ∧
    (clip.set_duration 0).samples_per_second =
      (clip.samples.length : ℚ) / 0 := by
  have hblend : lerp_quaternion q ⟨-q.w, -q.x, -q.y, -q.z⟩ (1 / 2) =
      ⟨0, 0, 0, 0⟩ := by
    simp only [lerp_quaternion]
    have hw : (1 - (1:ℚ) / 2) * q.w + 1 / 2 * (Quat.mk (-q.w) (-q.x) (-q.y) (-q.z)).w = 0 := by
      simp only []
      ring
    have hx : (1 - (1:ℚ) / 2) * q.x + 1 / 2 * (Quat.mk (-q.w) (-q.x) (-q.y) (-q.z)).x = 0 := by
      simp only []
      ring
    have hy : (1 - (1:ℚ) / 2) * q.y + 1 / 2 * (Quat.mk (-q.w) (-q.x) (-q.y) (-q.z)).y = 0 := by
      simp only []
      ring
    have hz : (1 - (1:ℚ) / 2) * q.z + 1 / 2 * (Quat.mk (-q.w) (-q.x) (-q.y) (-q.z)).z = 0 := by
      simp only []
      ring
    rw [hw, hx, hy, hz]
    simp [zero_div]
  exact ⟨hblend, by rw [hblend]; norm_num [normSq], rfl⟩

end SkeletalAnimation
